import Mathlib

/-!
Verification of the article-aggregator pipeline (`src/article_aggregator.py`).

The Python code is shallowly embedded: strings are Lean `String`s (sequences
of Unicode code points, matching Python `str` length/indexing semantics),
Python string helpers (`strip`, `splitlines`, `split`, `lower`, `in`,
slicing) are re-implemented below over `List Char`, and the regular
expressions appearing in the source are compiled by hand into specialized
matchers.  External effects (HTTP fetches, the LLM providers, the `re`-based
sentence scorer of `enhanced_simple_summary`, and library date parsers) are
modelled as explicit parameters, so every theorem quantifies over their
possible outcomes.
-/

namespace ArticleAggregator

/-! ## Python string primitives -/

/-- Code points for which Python `str.isspace()` holds (and which
`str.strip()` / `str.split()` treat as whitespace). -/
def pySpaceChars : List Char :=
  [' ', '\t', '\n', '\r', '\x0b', '\x0c', '\x1c', '\x1d', '\x1e', '\x1f',
   '\x85', '\xa0', ' ', ' ', ' ', ' ', ' ',
   ' ', ' ', ' ', ' ', ' ', ' ', ' ',
   ' ', ' ', ' ', ' ', '　']

def pyIsSpaceChar (c : Char) : Bool := pySpaceChars.contains c

/-- Line boundaries recognised by Python `str.splitlines()`. -/
def lineBoundChars : List Char :=
  ['\n', '\r', '\x0b', '\x0c', '\x1c', '\x1d', '\x1e', '\x85', ' ', ' ']

def isLineBound (c : Char) : Bool := lineBoundChars.contains c

/-- `str.strip()` on a character list: drop whitespace from both ends. -/
def stripList (l : List Char) : List Char :=
  ((l.dropWhile pyIsSpaceChar).reverse.dropWhile pyIsSpaceChar).reverse

/-- Python `s.strip()`. -/
def pyStrip (s : String) : String := String.mk (stripList s.data)

/-- Worker for `str.splitlines()`: `acc` holds the current line reversed.
A line boundary always emits the current line (`"\r\n"` counts once); at the
end of input the pending line is emitted only if non-empty. -/
def slGo : List Char → List Char → List String
  | [], acc => if acc.isEmpty then [] else [String.mk acc.reverse]
  | '\r' :: '\n' :: cs, acc => String.mk acc.reverse :: slGo cs []
  | c :: cs, acc =>
    if isLineBound c then String.mk acc.reverse :: slGo cs []
    else slGo cs (c :: acc)

/-- Python `s.splitlines()`. -/
def pySplitlines (s : String) : List String := slGo s.data []

/-- Worker for no-argument `str.split()`: split on whitespace runs,
dropping empty fields. -/
def wsGo : List Char → List Char → List String
  | [], acc => if acc.isEmpty then [] else [String.mk acc.reverse]
  | c :: cs, acc =>
    if pyIsSpaceChar c then
      if acc.isEmpty then wsGo cs [] else String.mk acc.reverse :: wsGo cs []
    else wsGo cs (c :: acc)

/-- Python `s.split()` (whitespace words). -/
def pySplit (s : String) : List String := wsGo s.data []

/-- Python `'\n'.join(lines)`. -/
def joinLines : List String → String
  | [] => ""
  | [l] => l
  | l :: l2 :: ls => l ++ "\n" ++ joinLines (l2 :: ls)

/-- Python `s.lower()` (ASCII case folding; all characters relevant to the
source's patterns are ASCII). -/
def pyLower (s : String) : String := String.mk (s.data.map Char.toLower)

/-- Boolean prefix test on character lists (used to model Python substring
operations without relying on library `BEq` helpers). -/
def segPre : List Char → List Char → Bool
  | [], _ => true
  | _ :: _, [] => false
  | a :: p, b :: s => a = b && segPre p s

/-- Boolean infix test on character lists: Python `needle in haystack`. -/
def segIn (p : List Char) : List Char → Bool
  | [] => p.isEmpty
  | b :: s => segPre p (b :: s) || segIn p s

/-- Python `pat in s` (substring containment). -/
def containsStr (s pat : String) : Bool := segIn pat.data s.data

/-- Python slicing `s[:n]` (first `n` code points). -/
def pyTake (s : String) (n : Nat) : String := String.mk (s.data.take n)

/-- Python slicing `s[n:]` (drop the first `n` code points). -/
def pyDrop (s : String) (n : Nat) : String := String.mk (s.data.drop n)

/-- Python `s.count(c)` for a single character. -/
def pyCountChar (s : String) (c : Char) : Nat := s.data.count c

/-- Worker for Python `s.split('\n')`. -/
def splitNlGo : List Char → List Char → List String
  | [], acc => [String.mk acc.reverse]
  | c :: cs, acc =>
    if c = '\n' then String.mk acc.reverse :: splitNlGo cs []
    else splitNlGo cs (c :: acc)

/-- Python `s.split('\n')`. -/
def pySplitOnNl (s : String) : List String := splitNlGo s.data []

/-- Python `s.replace('\n', ' ')`. -/
def pyReplaceNlSpace (s : String) : String :=
  String.mk (s.data.map (fun c => if c = '\n' then ' ' else c))

/-- Python `sep.join(parts)`. -/
def joinSep (sep : String) : List String → String
  | [] => ""
  | [l] => l
  | l :: l2 :: ls => l ++ sep ++ joinSep sep (l2 :: ls)

/-! ## `clean_extracted_content` (source lines 536-581) -/

/-- The `skip_patterns` list of `clean_extracted_content`. -/
def skipPatterns : List String :=
  ["menu", "search", "subscribe", "newsletter", "follow us",
   "share", "tweet", "facebook", "linkedin", "email",
   "advertisement", "sponsored", "techcrunch", "crunchbase",
   "image credit", "getty images", "save", "sign up",
   "build smarter", "looking back", "what do you feel",
   "techcrunch event", "all stage pass", "privacy policy",
   "terms of service", "cookie policy", "all rights reserved",
   "related articles", "you might also like", "recommended",
   "trending", "most popular", "latest news", "editor picks",
   "click here", "learn more", "find out more", "read full"]

/-- Python `line.isdigit()` (ASCII digit model). -/
def pyIsDigitStr (s : String) : Bool := !s.data.isEmpty && s.data.all Char.isDigit

/-- `re.match(r'^\d+\s*(comments?|shares?|likes?)', line)`: one or more
digits, optional whitespace, then one of the keywords (the optional plural
`s` never affects match success). -/
def reCounterMatch (s : String) : Bool :=
  let ds := s.data.takeWhile Char.isDigit
  if ds.isEmpty then false
  else
    let rest := (s.data.dropWhile Char.isDigit).dropWhile pyIsSpaceChar
    segPre "comment".data rest || segPre "share".data rest || segPre "like".data rest

def monthAbbrevs : List String :=
  ["jan", "feb", "mar", "apr", "may", "jun", "jul", "aug", "sep", "oct", "nov", "dec"]

/-- `re.match(r'^(jan|feb|...|dec)', line)`. -/
def reMonthMatch (s : String) : Bool :=
  monthAbbrevs.any (fun m => segPre m.data s.data)

/-- The `re.match` over the character class of digits, whitespace, hyphen,
slash, colon and dot (anchored both ends), for boundary-free lines:
non-empty and all characters in the class. -/
def reNumPunctMatch (s : String) : Bool :=
  !s.data.isEmpty &&
    s.data.all (fun c => c.isDigit || pyIsSpaceChar c || c = '-' || c = '/' || c = ':' || c = '.')

/-- The per-line filter of `clean_extracted_content`'s first pass. -/
def goodLine (l : String) : Bool :=
  decide (l.length > 20) &&
  decide ((pySplit l).length > 4) &&
  !pyIsDigitStr l &&
  !l.data.contains '©' &&
  !skipPatterns.any (fun p => containsStr (pyLower l) p) &&
  !reCounterMatch (pyLower l) &&
  !reMonthMatch (pyLower l) &&
  !reNumPunctMatch l &&
  decide (pyCountChar l '|' < 4)

/-- First pass of `clean_extracted_content`: strip each line and keep the
ones passing the filter. -/
def cleanLines (content : String) : List String :=
  ((pySplitlines content).map pyStrip).filter goodLine

/-- Second pass of `clean_extracted_content`: deduplicate (first occurrence
wins), keeping non-empty stripped lines longer than 15 characters. -/
def dedupGo : List String → List String → List String
  | _, [] => []
  | seen, l :: ls =>
    let l2 := pyStrip l
    if l2 ≠ "" ∧ ¬ l2 ∈ seen ∧ l2.length > 15
    then l2 :: dedupGo (l2 :: seen) ls
    else dedupGo seen ls

/-- `clean_extracted_content(content)` (source lines 536-581). -/
def clean_extracted_content (content : String) : String :=
  if content = "" then ""
  else
    let cleaned := joinLines (cleanLines content)
    joinLines (dedupGo [] (pySplitlines cleaned))

/-! ## `format_ai_summary` (source lines 660-716) -/

/-- The `prefixes_to_remove` list of `format_ai_summary`. -/
def leadPhrases : List String :=
  ["Here are the key points:", "Here's a summary:", "Executive Summary:",
   "Summary:", "Key insights:", "Here are 3-4 bullet points:",
   "Based on the article:", "Here are the key business insights:",
   "Key business developments:", "Main points:", "Important highlights:"]

/-- Strip the known preamble phrases (case-insensitive prefix match, each
phrase tried once in order), starting from the stripped model text. -/
def stripLeadPhrases (s : String) : String :=
  leadPhrases.foldl
    (fun acc p =>
      if segPre (pyLower p).data (pyLower acc).data
      then pyStrip (pyDrop acc p.length)
      else acc)
    (pyStrip s)

/-- The `bullet_patterns` list of `format_ai_summary`. -/
def bulletMarkers : List String :=
  ["•", "-", "*", "▪", "○", "·", "1.", "2.", "3.", "4.", "5.", "6.", "7.", "8.", "9."]

/-- Strip a leading bullet/numbering marker from a line (first matching
pattern wins), as in the marker-cleaning loop of `format_ai_summary`. -/
def stripMarker (line : String) : String :=
  match bulletMarkers.find? (fun p => segPre (p ++ " ").data line.data) with
  | some p => pyStrip (pyDrop line p.length)
  | none => line

/-- `re.split(r'(?<=[.!?])\s+', text)` worker: split at whitespace runs
immediately preceded by terminal punctuation; `acc` holds the current
segment reversed. -/
def prevIsTerm : List Char → Bool
  | p :: _ => p = '.' || p = '!' || p = '?'
  | [] => false

def sentGo : List Char → List Char → Bool → List String
  | [], acc, _ => [String.mk acc.reverse]
  | c :: cs, acc, true =>
    if pyIsSpaceChar c then sentGo cs acc true
    else sentGo cs (c :: acc) false
  | c :: cs, acc, false =>
    if pyIsSpaceChar c && prevIsTerm acc then
      String.mk acc.reverse :: sentGo cs [] true
    else sentGo cs (c :: acc) false

/-- Python sentence split `re.split(r'(?<=[.!?])\s+', text)`: the `Bool`
flag of `sentGo` is true while consuming the remainder of a `\s+` run
after a split point. -/
def pySentSplit (s : String) : List String := sentGo s.data [] false

/-- The per-line bullet acceptance test of `format_ai_summary` (line path):
5-50 words, more than 20 characters, no trailing ellipsis, contains a
period, and fewer than 4 bullets so far. -/
def lineBulletOk (t : String) (nBullets : Nat) : Bool :=
  decide (5 ≤ (pySplit t).length) && decide ((pySplit t).length ≤ 50) &&
  decide (t.length > 20) && !segPre "...".data t.data.reverse &&
  t.data.contains '.' && decide (nBullets < 4)

/-- Line path of `format_ai_summary`: strip markers, validate, collect up
to four bullets. -/
def lineBullets (lines : List String) : List String :=
  lines.foldl
    (fun bs line =>
      let t := stripMarker line
      if lineBulletOk t bs.length then bs ++ ["• " ++ t] else bs) []

/-- Sentence path of `format_ai_summary`: split into sentences, keep the
first four that satisfy the word/length bounds and end with terminal
punctuation. -/
def sentBullets (cleaned : String) : List String :=
  ((pySentSplit cleaned).take 4).foldl
    (fun bs s0 =>
      let s := pyStrip s0
      if decide (5 ≤ (pySplit s).length) && decide ((pySplit s).length ≤ 50) &&
         decide (s.length > 20) && prevIsTerm s.data.reverse
      then bs ++ ["• " ++ s] else bs) []

/-- The bullet list produced by `format_ai_summary`. -/
def format_ai_bullets (raw : String) : List String :=
  if raw = "" then []
  else
    let cleaned := stripLeadPhrases raw
    let lines := ((pySplitOnNl cleaned).map pyStrip).filter (fun l => l ≠ "")
    let bs := lineBullets lines
    let bs2 := if bs.length < 2 then sentBullets cleaned else bs
    bs2.take 4

/-- `format_ai_summary(summary_text)` (source lines 660-716). -/
def format_ai_summary (raw : String) : String :=
  if raw = "" then "" else joinLines (format_ai_bullets raw)

/-! ## `create_title_based_summary` (source lines 750-774) -/

/-- A regex word character (`\w`, ASCII model). -/
def isWordChar (c : Char) : Bool := c.isAlpha || c.isDigit || c = '_'

/-- A word boundary holds between the previous position and the head of `l`
when `l` is empty or starts with a non-word character (the previous
character is accounted for by the caller). -/
def boundaryOk : List Char → Bool
  | [] => true
  | c :: _ => !isWordChar c

/-- Matcher for the group suffix of `\b[A-Z][a-z]+(?:\s+[A-Z][a-z]+)*\b`
after an initial unit has been consumed: greedily take further
whitespace-separated `[A-Z][a-z]+` units, then check the trailing word
boundary, backtracking by dropping the final unit when the boundary fails
(dropping a unit always lands before its leading whitespace, where the
boundary holds; shrinking a lowercase run can never produce a boundary, so
these are the only regex backtracking points that matter). -/
def matchTailF : Nat → List Char → Option (List Char × List Char)
  | 0, _ => none
  | fuel + 1, l =>
    if (l.takeWhile pyIsSpaceChar).isEmpty then
      (if boundaryOk l then some ([], l) else none)
    else
      match l.dropWhile pyIsSpaceChar with
      | [] => some ([], l)
      | c :: cs =>
        if c.isUpper && !(cs.takeWhile (fun d => d.isLower)).isEmpty then
          match matchTailF fuel (cs.dropWhile (fun d => d.isLower)) with
          | some (ext, r2) =>
              some (l.takeWhile pyIsSpaceChar ++
                c :: cs.takeWhile (fun d => d.isLower) ++ ext, r2)
          | none => some ([], l)
        else some ([], l)

/-- Each recursion step of `matchTailF` consumes at least the leading
whitespace and one unit, so a fuel of `l.length + 1` never runs out. -/
def matchTail (l : List Char) : Option (List Char × List Char) :=
  matchTailF (l.length + 1) l

/-- The full pattern `\b[A-Z][a-z]+(?:\s+[A-Z][a-z]+)*\b` anchored at the
current position (the caller has already checked the leading boundary):
one `[A-Z][a-z]+` unit (maximal lowercase run) followed by `matchTail`. -/
def tryCompanyAt (l : List Char) : Option (List Char × List Char) :=
  match l with
  | [] => none
  | c :: cs =>
    if c.isUpper && !(cs.takeWhile (fun d => d.isLower)).isEmpty then
      match matchTail (cs.dropWhile (fun d => d.isLower)) with
      | some (ext, r2) => some (c :: cs.takeWhile (fun d => d.isLower) ++ ext, r2)
      | none => none
    else none

/-- `re.findall` scan for the company pattern: try the pattern at each
word-boundary position, restart after each non-overlapping match.  The
fuel is the length of the scanned list; every step (single-character
advance or non-empty match) consumes at least one character, so the fuel
never runs out. -/
def companyScanF : Nat → List Char → Bool → List String
  | 0, _, _ => []
  | _ + 1, [], _ => []
  | n + 1, c :: cs, atB =>
    if atB then
      match tryCompanyAt (c :: cs) with
      | some (m, rest) => String.mk m :: companyScanF n rest false
      | none => companyScanF n cs (!isWordChar c)
    else companyScanF n cs (!isWordChar c)

/-- `re.findall(r'\b[A-Z][a-z]+(?:\s+[A-Z][a-z]+)*\b', title)`. -/
def findCompanies (s : String) : List String := companyScanF s.data.length s.data true

def moneyAlts : List String := ["million", "billion", "M", "B", "k"]

/-- `re.findall(r'\$[\d,.]+(million|billion|M|B|k)', title, re.IGNORECASE)`:
`findall` with a capturing group returns the group text.  At a `$`, the
greedy digit/comma/dot run is maximal (the alternatives all start with a
letter, so regex backtracking into the run can never succeed); the first
alternative matching case-insensitively is captured as it appears in the
input.  Fuel as in `companyScanF`. -/
def moneyScanF : Nat → List Char → List String
  | 0, _ => []
  | _ + 1, [] => []
  | n + 1, c :: cs =>
    if c = '$' then
      if (cs.takeWhile (fun d => d.isDigit || d = ',' || d = '.')).isEmpty then
        moneyScanF n cs
      else
        match (moneyAlts.find? (fun a =>
          segPre (pyLower a).data
            ((cs.dropWhile (fun d => d.isDigit || d = ',' || d = '.')).map
              Char.toLower))) with
        | some a =>
            String.mk ((cs.dropWhile (fun d => d.isDigit || d = ',' || d = '.')).take
              a.length) ::
              moneyScanF n ((cs.dropWhile (fun d => d.isDigit || d = ',' || d = '.')).drop
                a.length)
        | none => moneyScanF n cs
    else moneyScanF n cs

def findMoney (s : String) : List String := moneyScanF s.data.length s.data

/-- The `action_words` list of `create_title_based_summary`. -/
def actionWords : List String :=
  ["raises", "launches", "announces", "acquires", "partners", "releases", "expands"]

/-- The `summary_parts` built by `create_title_based_summary`. -/
def create_title_based_parts (title : String) : List String :=
  (if (findCompanies title).isEmpty then []
   else ["Article focuses on " ++ joinSep ", " ((findCompanies title).take 2)]) ++
  (if (findMoney title).isEmpty then []
   else ["Involves financial amounts: " ++ joinSep ", " (findMoney title)]) ++
  (if (actionWords.filter (fun w => containsStr (pyLower title) (pyLower w))).isEmpty then []
   else ["Key developments include: " ++
     joinSep ", " (actionWords.filter (fun w => containsStr (pyLower title) (pyLower w)))])

/-- The bullet texts of the title-based summary: the title itself followed
by the extracted parts, or the literal failure bullet. -/
def create_title_based_bullets (title : String) : List String :=
  if (create_title_based_parts title).isEmpty then
    [title, "Content extraction failed - requires manual review for detailed analysis"]
  else title :: create_title_based_parts title

/-- `create_title_based_summary(title)` (source lines 750-774). -/
def create_title_based_summary (title : String) : String :=
  "• " ++ joinSep "\n• " (create_title_based_bullets title)

/-! ## `enhanced_simple_summary` (source lines 776-857)

The regex scoring block (financial, business, entity patterns plus keyword
counts, lines 787-836) reads a sentence and produces a non-negative score;
it is modelled as an explicit function parameter `score`, so the theorems
below hold for every possible scoring. -/

/-- The `key_sentences` of `enhanced_simple_summary`: sentences filtered
and scored, sorted by score descending (Python's stable sort), with the
first-four-substantial-sentences fallback. -/
def enhancedKeySentences (score : String → Nat) (content : String) : List String :=
  let sentences := pySentSplit (pyReplaceNlSpace content)
  let scored := sentences.foldl
    (fun acc s0 =>
      let s := pyStrip s0
      if s.length > 30 ∧ (pySplit s).length > 6 then
        (if score s > 0 then acc ++ [(s, score s)] else acc)
      else acc) ([] : List (String × Nat))
  let keyS0 := ((scored.mergeSort (fun a b => decide (b.2 ≤ a.2))).take 4).map (fun p => p.1)
  if keyS0.isEmpty then
    (sentences.take 4).filterMap
      (fun s => if (pyStrip s).length > 30 then some (pyStrip s) else none)
  else keyS0

/-- The bullet list built by `enhanced_simple_summary`. -/
def enhancedBullets (score : String → Nat) (content : String) : List String :=
  ((enhancedKeySentences score content).take 3).foldl
    (fun bs s => if (pyStrip s).length > 20 then bs ++ ["• " ++ pyStrip s] else bs) []

def enhanced_simple_summary (score : String → Nat) (content title : String) : String :=
  if content = "" ∨ (pySplit content).length < 20 then
    create_title_based_summary title
  else
    if (enhancedBullets score content).isEmpty then create_title_based_summary title
    else joinLines (enhancedBullets score content)

/-! ## The provider cascade (source lines 583-658 and 718-748)

A provider attempt's transport outcome is a parameter: `none` models a
request exception or non-200 status, `some body` a successful response
body.  `try_groq_free` makes at most two attempts; a response is returned
only once formatted by `format_ai_summary` and validated. -/

/-- The acceptance test inside `try_groq_free`:
`formatted_summary and len(formatted_summary.strip()) > 50`. -/
def providerValidates (f : String) : Bool := f ≠ "" && decide ((pyStrip f).length > 50)

/-- Successive attempts of one provider: first response whose formatted
summary validates. -/
def providerAttemptsGo : List (Option String) → Option String
  | [] => none
  | none :: rest => providerAttemptsGo rest
  | some b :: rest =>
    if providerValidates (format_ai_summary b) then some (format_ai_summary b)
    else providerAttemptsGo rest

/-- `try_groq_free(content, title)` (source lines 583-658): skip without a
key, skip when `content` is absent or its stripped length is below 100,
otherwise run at most two attempts. -/
def try_groq_free (hasKey : Bool) (attempts : List (Option String)) (content : String) :
    Option String :=
  if !hasKey then none
  else if content = "" ∨ (pyStrip content).length < 100 then none
  else providerAttemptsGo (attempts.take 2)

/-- Modelled from the spec: `try_openai_free` is invoked by
`generate_summary_free` but its definition is missing from the source file.
Per spec §4.3 each cascade provider skips without a credential, skips when
the cleaned text is below a minimum-length gate, makes one call with at
most one retry, passes the returned text through the bullet formatter and
accepts only a validated result. -/
def try_openai_free (hasKey : Bool) (attempts : List (Option String)) (content : String) :
    Option String :=
  if !hasKey then none
  else if content = "" ∨ (pyStrip content).length < 100 then none
  else providerAttemptsGo (attempts.take 2)

/-- Modelled from the spec: `try_hf_chat_model` is invoked by
`generate_summary_free` but its definition is missing from the source file;
modelled exactly like the other cascade providers (spec §4.3). -/
def try_hf_chat_model (hasKey : Bool) (attempts : List (Option String)) (content : String) :
    Option String :=
  if !hasKey then none
  else if content = "" ∨ (pyStrip content).length < 100 then none
  else providerAttemptsGo (attempts.take 2)

/-- Transport environment for the three cascade providers. -/
structure ProviderEnv where
  groqKey : Bool
  openaiKey : Bool
  hfKey : Bool
  groqAttempts : List (Option String)
  openaiAttempts : List (Option String)
  hfAttempts : List (Option String)

/-- The results the three providers would produce on this content, in
cascade order. -/
def providerResults (env : ProviderEnv) (content : String) : List (Option String) :=
  [try_groq_free env.groqKey env.groqAttempts content,
   try_openai_free env.openaiKey env.openaiAttempts content,
   try_hf_chat_model env.hfKey env.hfAttempts content]

/-- The check `generate_summary_free` applies to each provider result:
`summary and len(summary.strip()) > 30`. -/
def summaryAccepted : Option String → Bool
  | some s => decide ((pyStrip s).length > 30)
  | none => false

/-- Walk the cascade: first accepted summary together with the number of
providers invoked to obtain it. -/
def cascadeSelect : List (Option String) → Option (String × Nat)
  | [] => none
  | none :: rest => (cascadeSelect rest).map (fun p => (p.1, p.2 + 1))
  | some s :: rest =>
    if (pyStrip s).length > 30 then some (s, 1)
    else (cascadeSelect rest).map (fun p => (p.1, p.2 + 1))

/-- `generate_summary_free(content, title)` (source lines 718-748).  The
first component is the returned summary, the second the number of cascade
providers invoked (0 when the short-content gate fires, 3 when the
heuristic fallback runs). -/
def generate_summary_free (env : ProviderEnv) (score : String → Nat)
    (content title : String) : String × Nat :=
  if content = "" ∨ (pyStrip content).length < 50 then
    (create_title_based_summary title, 0)
  else
    match cascadeSelect (providerResults env content) with
    | some (s, n) => (s, n)
    | none => (enhanced_simple_summary score content title, 3)

/-! ## `scrape_article_content` (source lines 316-467)

The HTTP fetch and the parsed DOM are parameters: `fetchOk n` is the
outcome of the `n`-th request attempt, `matchSets` gives, for each content
selector in order, the `get_text()` strings of its matching elements after
noise removal, and `paraContent` / `fullText` are the outcomes of
`extract_paragraphs(soup)` and `soup.get_text()`. -/

/-- `max(elements, key=lambda x: len(x.get_text().strip()))`: Python `max`
keeps the first element among ties. -/
def pickLargest : List String → Option String
  | [] => none
  | e :: es =>
    some (es.foldl
      (fun best x => if (pyStrip x).length > (pyStrip best).length then x else best) e)

/-- The selector cascade (source lines 419-434): for the first selector
whose largest match exceeds 200 stripped characters, return that match's
full text; otherwise the empty string. -/
def selectorLoop : List (List String) → String
  | [] => ""
  | ms :: rest =>
    match pickLargest ms with
    | none => selectorLoop rest
    | some el => if (pyStrip el).length > 200 then el else selectorLoop rest

/-- The content-selection chain of `scrape_article_content` (source lines
436-447): keep the selector result when it has 200 stripped characters,
else the paragraph extraction, else (below 100) the cleaned full document
text when that has more than 500 stripped characters. -/
def scrapeSelect (selContent paraContent fullText : String) : String :=
  let c1 := selContent
  let c2 := if c1 = "" ∨ (pyStrip c1).length < 200 then paraContent else c1
  if c2 = "" ∨ (pyStrip c2).length < 100 then
    (if (pyStrip fullText).length > 500 then clean_extracted_content fullText else c2)
  else c2

/-- The final gate, cleaning and truncation (source lines 449-460). -/
def scrapeAssemble (selContent paraContent fullText : String) : String :=
  if scrapeSelect selContent paraContent fullText = "" ∨
     (pyStrip (scrapeSelect selContent paraContent fullText)).length < 50 then ""
  else
    if clean_extracted_content (scrapeSelect selContent paraContent fullText) = "" then ""
    else pyTake (clean_extracted_content (scrapeSelect selContent paraContent fullText)) 15000

/-- `scrape_article_content(url)` (source lines 316-467).  The second
component counts HTTP requests performed (up to the 3 retries); a `None`
url is modelled as the empty string. -/
def scrape_article_content (url : String) (fetchOk : Nat → Bool)
    (matchSets : List (List String)) (paraContent fullText : String) : String × Nat :=
  if url = "" ∨ segPre "http".data url.data = false then ("", 0)
  else
    let tries := if fetchOk 0 then 1 else if fetchOk 1 then 2 else 3
    if fetchOk 0 ∨ fetchOk 1 ∨ fetchOk 2 then
      (scrapeAssemble (selectorLoop matchSets) paraContent fullText, tries)
    else ("", tries)

/-! ## `parse_entry_date` (source lines 219-263) and the recency filter of
`fetch_rss_articles` (source lines 177-203)

Timestamps are modelled as integers; `mkDate` models the `datetime(*t[:6])`
constructor (`none` = raised) and `strParse` the string-date parsing block
(`dateutil` plus the three `strptime` formats; `none` = all failed). -/

structure RSSEntry where
  published_parsed : Option (List Int)
  updated_parsed : Option (List Int)
  published : Option String
  updated : Option String
  date : Option String

/-- One `*_parsed` field: skipped when absent or empty ("falsy"), used only
when the tuple has at least 6 entries, and skipped when `datetime` raises. -/
def tryTimeTuple (mkDate : List Int → Option Int) (o : Option (List Int)) : Option Int :=
  match o with
  | none => none
  | some t => if t.isEmpty then none else if 6 ≤ t.length then mkDate (t.take 6) else none

/-- One string date field: skipped when absent or empty, else parsed. -/
def tryDateString (strParse : String → Option Int) (o : Option String) : Option Int :=
  match o with
  | none => none
  | some s => if s = "" then none else strParse s

/-- `parse_entry_date(entry)`: first parseable field in the fixed order,
defaulting to the current time. -/
def parse_entry_date (mkDate : List Int → Option Int) (strParse : String → Option Int)
    (now : Int) (e : RSSEntry) : Int :=
  ((((tryTimeTuple mkDate e.published_parsed).orElse
      (fun _ => tryTimeTuple mkDate e.updated_parsed)).orElse
      (fun _ => tryDateString strParse e.published)).orElse
      (fun _ => (tryDateString strParse e.updated).orElse
        (fun _ => tryDateString strParse e.date))).getD now

/-- `cutoff_time = datetime.now() - timedelta(hours=hours_back)` in seconds. -/
def rssCutoff (now hoursBack : Int) : Int := now - hoursBack * 3600

/-- The recency test of `fetch_rss_articles`: `pub_date and pub_date >
cutoff_time` (a datetime is always truthy). -/
def entryIsRecent (pubDate cutoff : Int) : Bool := decide (cutoff < pubDate)

/-! ## Concrete inputs used by counterexamples and witnesses -/

/-- Extracted content whose stripped length passes the 50-character gate of
`scrape_article_content` but which the cleaner reduces to a single short
line: a valid 21-character line plus a 300-digit line (dropped by the
`isdigit` filter). -/
def shortCleanContent : String :=
  "aaa bbb ccc ddd eee f" ++ "\n" ++ String.mk (List.replicate 300 '7')

/-- One building block of the long counterexample line. -/
def zwBlock : List Char := ['z', 'w', ' ']

/-- A 14993-character line passing every filter of the cleaner: 4997
copies of `"zw "` followed by `"10"`. -/
def line0 : String := String.mk ((List.replicate 4997 zwBlock).flatten ++ ['1', '0'])

/-- A second, 23-character line passing every filter of the cleaner. -/
def line1 : String := "zw zw zw zw zw zw zw 22"

/-- 15017 characters of cleaner-stable content: truncating it to 15000
characters cuts 6 characters into the second line. -/
def longContent : String := joinLines [line0, line1]

/-- The character set of the counterexample lines. -/
def zwAllowed : List Char := ['z', 'w', ' ', '0', '1', '2']

/-- The 2000-character article block of spec scenario 1. -/
def articleBlock : String := String.mk (List.replicate 2000 'a')

/-- A 100-character sidebar text of spec scenario 1. -/
def sidebarDiv : String := String.mk (List.replicate 100 'b')

/-- A provider response body that is already two well-formed bullets; the
formatter returns it unchanged. -/
def goodBody : String :=
  "• Acme Corp raised thirty million dollars in new funding.\n• The company plans major European expansion next year."

/-- A 150-character content string passing both length gates. -/
def longEnoughContent : String := String.mk (List.replicate 150 'a')

/-- A bullet text ends with terminal sentence punctuation. -/
def endsTerminal (t : String) : Bool :=
  t.data.getLast? = some '.' || t.data.getLast? = some '!' || t.data.getLast? = some '?'

/-! ## Lemmas about the string primitives -/

theorem strExt {s t : String} (h : s.data = t.data) : s = t := by
  cases s; cases t; exact congrArg String.mk h

theorem strNe {s : String} (h : s.data ≠ []) : s ≠ "" :=
  fun hc => h (congrArg String.data hc)

theorem dropWhile_head_false {p : Char → Bool} {l : List Char} {c : Char}
    (h : (l.dropWhile p).head? = some c) : p c = false := by
  induction l with
  | nil => simp [List.dropWhile] at h
  | cons a as ih =>
    rw [List.dropWhile_cons] at h
    by_cases hp : p a
    · rw [if_pos hp] at h; exact ih h
    · rw [if_neg hp] at h
      simp only [List.head?_cons, Option.some.injEq] at h
      subst h; exact Bool.of_not_eq_true hp

theorem dropWhile_of_head_false {p : Char → Bool} {l : List Char}
    (h : ∀ c, l.head? = some c → p c = false) : l.dropWhile p = l := by
  cases l with
  | nil => rfl
  | cons a as => rw [List.dropWhile_cons, h a rfl]; simp

theorem map_id_of_mem {α} (f : α → α) (l : List α) (h : ∀ a ∈ l, f a = a) :
    l.map f = l := by
  induction l with
  | nil => rfl
  | cons a as ih =>
    rw [List.map_cons, h a (by simp), ih (fun x hx => h x (by simp [hx]))]

/-- A `dropWhile`-both-ends strip, applied twice, is the same as once. -/
theorem stripList_idem (l : List Char) : stripList (stripList l) = stripList l := by
  have ha : ∀ c, (l.dropWhile pyIsSpaceChar).head? = some c → pyIsSpaceChar c = false :=
    fun _ hc => dropWhile_head_false hc
  unfold stripList
  cases hb : (l.dropWhile pyIsSpaceChar).reverse.dropWhile pyIsSpaceChar with
  | nil => simp
  | cons y ys =>
    rw [← hb]
    have hbne : (l.dropWhile pyIsSpaceChar).reverse.dropWhile pyIsSpaceChar ≠ [] := by
      rw [hb]; simp
    -- the stripped list: first element (after reversing back) is the head of
    -- `dropWhile` of `l`, its last element is head of the second `dropWhile`
    have hlast : ((l.dropWhile pyIsSpaceChar).reverse.dropWhile pyIsSpaceChar).getLast? =
        (l.dropWhile pyIsSpaceChar).head? := by
      obtain ⟨t, ht⟩ := List.dropWhile_suffix
        (l := (l.dropWhile pyIsSpaceChar).reverse) pyIsSpaceChar
      conv_lhs => rw [← List.getLast?_append_of_ne_nil t hbne, ht, List.getLast?_reverse]
    have hstep1 : ((l.dropWhile pyIsSpaceChar).reverse.dropWhile
        pyIsSpaceChar).reverse.dropWhile pyIsSpaceChar =
        ((l.dropWhile pyIsSpaceChar).reverse.dropWhile pyIsSpaceChar).reverse := by
      apply dropWhile_of_head_false
      intro c hc
      rw [List.head?_reverse, hlast] at hc
      exact ha c hc
    rw [hstep1, List.reverse_reverse]
    rw [dropWhile_of_head_false (fun c hc => dropWhile_head_false hc)]

theorem stripList_subset (l : List Char) : ∀ c ∈ stripList l, c ∈ l := by
  intro c hc
  unfold stripList at hc
  rw [List.mem_reverse] at hc
  have h2 := (List.dropWhile_suffix pyIsSpaceChar).mem hc
  rw [List.mem_reverse] at h2
  exact (List.dropWhile_suffix pyIsSpaceChar).mem h2

theorem pyStrip_idem (s : String) : pyStrip (pyStrip s) = pyStrip s :=
  congrArg String.mk (stripList_idem s.data)

theorem slGo_cons_noBound (c : Char) (cs acc : List Char) (h : isLineBound c = false) :
    slGo (c :: cs) acc = slGo cs (c :: acc) := by
  rw [slGo.eq_3 _ c cs ?_, if_neg (by simp [h])]
  intro cs1 hc _
  subst hc
  exact absurd h (by decide)

theorem slGo_cons_bound (c : Char) (cs acc : List Char) (hb : isLineBound c = true)
    (hguard : ∀ cs1, c = '\r' → cs = '\n' :: cs1 → False) :
    slGo (c :: cs) acc = String.mk acc.reverse :: slGo cs [] := by
  rw [slGo.eq_3 _ c cs hguard, if_pos hb]

theorem slGo_crlf (cs acc : List Char) :
    slGo ('\r' :: '\n' :: cs) acc = String.mk acc.reverse :: slGo cs [] := rfl

theorem slGo_noBound (cs : List Char) (rest : List Char) (acc : List Char)
    (h : ∀ c ∈ cs, isLineBound c = false) :
    slGo (cs ++ rest) acc = slGo rest (cs.reverse ++ acc) := by
  induction cs generalizing acc with
  | nil => simp
  | cons c cs' ih =>
    have hc := h c (by simp)
    rw [List.cons_append, slGo_cons_noBound c _ acc hc]
    rw [ih (c :: acc) (fun x hx => h x (by simp [hx]))]
    simp

theorem slGo_nl (cs acc : List Char) :
    slGo ('\n' :: cs) acc = String.mk acc.reverse :: slGo cs [] := rfl

theorem joinLines_ne (l0 : String) (L' : List String) (h : l0.data ≠ []) :
    joinLines (l0 :: L') ≠ "" := by
  cases L' with
  | nil => exact strNe h
  | cons l2 L'' =>
    apply strNe
    rw [show joinLines (l0 :: l2 :: L'') = l0 ++ "\n" ++ joinLines (l2 :: L'') from rfl]
    rw [String.data_append, String.data_append]
    simp [h]

theorem pySplitlines_joinLines (L : List String)
    (h : ∀ l ∈ L, l.data ≠ [] ∧ ∀ c ∈ l.data, isLineBound c = false) :
    pySplitlines (joinLines L) = L := by
  induction L with
  | nil => simp [pySplitlines, joinLines, slGo]
  | cons l L' ih =>
    obtain ⟨hne, hnb⟩ := h l (by simp)
    cases L' with
    | nil =>
      show slGo (joinLines [l]).data [] = [l]
      rw [show (joinLines [l]).data = l.data ++ [] by simp [joinLines]]
      rw [slGo_noBound l.data [] [] hnb, slGo]
      rw [if_neg (by simpa using hne)]
      simp
    | cons l2 L'' =>
      show slGo (joinLines (l :: l2 :: L'')).data [] = l :: l2 :: L''
      rw [show joinLines (l :: l2 :: L'') = l ++ "\n" ++ joinLines (l2 :: L'') from rfl]
      rw [String.data_append, String.data_append,
        show ("\n" : String).data = ['\n'] from rfl, List.append_assoc,
        List.singleton_append, slGo_noBound l.data _ [] hnb, slGo_nl]
      simp only [List.append_nil, List.reverse_reverse]
      rw [show String.mk l.data = l from rfl]
      rw [show slGo (joinLines (l2 :: L'')).data [] =
        pySplitlines (joinLines (l2 :: L'')) from rfl]
      rw [ih (fun x hx => h x (by simp [hx]))]

theorem slGo_nil_mem (acc : List Char) (hacc : ∀ c ∈ acc, isLineBound c = false) :
    ∀ s ∈ slGo [] acc, ∀ c ∈ s.data, isLineBound c = false := by
  intro s hs
  rw [slGo] at hs
  split at hs
  · simp at hs
  · simp only [List.mem_singleton] at hs
    subst hs
    intro c hc
    rw [show (String.mk acc.reverse).data = acc.reverse from rfl,
      List.mem_reverse] at hc
    exact hacc c hc

theorem slGo_mem_noBound_aux (n : Nat) : ∀ (l acc : List Char), l.length ≤ n →
    (∀ c ∈ acc, isLineBound c = false) →
    ∀ s ∈ slGo l acc, ∀ c ∈ s.data, isLineBound c = false := by
  induction n with
  | zero =>
    intro l acc hl hacc s hs
    have hl0 : l = [] := List.length_eq_zero.mp (Nat.le_zero.mp hl)
    subst hl0
    exact slGo_nil_mem acc hacc s hs
  | succ n ih =>
    intro l acc hl hacc s hs
    cases l with
    | nil => exact slGo_nil_mem acc hacc s hs
    | cons c cs =>
      have hcs : cs.length ≤ n := by simpa using hl
      have haccmem : ∀ x ∈ (String.mk acc.reverse).data, isLineBound x = false := by
        intro x hx
        rw [show (String.mk acc.reverse).data = acc.reverse from rfl,
          List.mem_reverse] at hx
        exact hacc x hx
      by_cases hrn : c = '\r' ∧ ∃ cs2, cs = '\n' :: cs2
      · obtain ⟨hc, cs2, hcs2⟩ := hrn
        subst hc; subst hcs2
        rw [slGo_crlf] at hs
        rcases List.mem_cons.mp hs with h1 | h1
        · subst h1; exact haccmem
        · refine ih cs2 [] ?_ (by simp) s h1
          simp only [List.length_cons] at hcs
          omega
      · have hguard : ∀ cs1, c = '\r' → cs = '\n' :: cs1 → False :=
          fun cs1 h1 h2 => hrn ⟨h1, cs1, h2⟩
        by_cases hb : isLineBound c
        · rw [slGo_cons_bound c cs acc hb hguard] at hs
          rcases List.mem_cons.mp hs with h1 | h1
          · subst h1; exact haccmem
          · exact ih cs [] hcs (by simp) s h1
        · rw [slGo_cons_noBound c cs acc (Bool.of_not_eq_true hb)] at hs
          refine ih cs (c :: acc) hcs ?_ s hs
          intro x hx
          rcases List.mem_cons.mp hx with h1 | h1
          · subst h1; exact Bool.of_not_eq_true hb
          · exact hacc x h1

theorem pySplitlines_mem_noBound (t : String) (l : String)
    (hl : l ∈ pySplitlines t) : ∀ c ∈ l.data, isLineBound c = false :=
  slGo_mem_noBound_aux t.data.length t.data [] le_rfl (by simp) l hl

/-! ## Lemmas about `clean_extracted_content` -/

theorem goodLine_big {l : String} (h : goodLine l = true) : 20 < l.length := by
  unfold goodLine at h
  simp only [Bool.and_eq_true, decide_eq_true_eq] at h
  tauto

theorem goodLine_ne {l : String} (h : goodLine l = true) : l.data ≠ [] := by
  intro hl
  have h1 := goodLine_big h
  rw [show l.length = l.data.length from rfl, hl] at h1
  simp at h1

theorem cleanLines_spec (t : String) :
    ∀ l ∈ cleanLines t, goodLine l = true ∧ pyStrip l = l ∧ l.data ≠ [] ∧
      ∀ c ∈ l.data, isLineBound c = false := by
  intro l hl
  unfold cleanLines at hl
  have hg := List.of_mem_filter hl
  have hm := List.mem_of_mem_filter hl
  obtain ⟨l0, hl0, rfl⟩ := List.mem_map.mp hm
  refine ⟨hg, pyStrip_idem l0, goodLine_ne hg, ?_⟩
  intro c hc
  have hc0 : c ∈ l0.data := stripList_subset _ c hc
  exact pySplitlines_mem_noBound t l0 hl0 c hc0

theorem dedupGo_subset (seen ls : List String) (hs : ∀ l ∈ ls, pyStrip l = l) :
    ∀ x ∈ dedupGo seen ls, x ∈ ls := by
  induction ls generalizing seen with
  | nil => simp [dedupGo]
  | cons l ls' ih =>
    intro x hx
    rw [dedupGo] at hx
    simp only [hs l (by simp)] at hx
    split at hx
    · rcases List.mem_cons.mp hx with h1 | h1
      · simp [h1]
      · exact List.mem_cons_of_mem _ (ih _ (fun y hy => hs y (by simp [hy])) x h1)
    · exact List.mem_cons_of_mem _ (ih _ (fun y hy => hs y (by simp [hy])) x hx)

theorem dedupGo_nodup (ls : List String) : ∀ seen,
    (dedupGo seen ls).Nodup ∧ ∀ x ∈ dedupGo seen ls, ¬ x ∈ seen := by
  induction ls with
  | nil => intro seen; simp [dedupGo]
  | cons l ls' ih =>
    intro seen
    rw [dedupGo]
    by_cases hcond : pyStrip l ≠ "" ∧ ¬ pyStrip l ∈ seen ∧ (pyStrip l).length > 15
    · rw [if_pos hcond]
      obtain ⟨ihn, ihs⟩ := ih (pyStrip l :: seen)
      constructor
      · exact List.nodup_cons.mpr ⟨fun hm => (ihs _ hm) (by simp), ihn⟩
      · intro x hx hxs
        rcases List.mem_cons.mp hx with h1 | h1
        · exact hcond.2.1 (h1 ▸ hxs)
        · exact (ihs x h1) (by simp [hxs])
    · rw [if_neg hcond]; exact ih seen

theorem dedupGo_id (ls : List String) : ∀ (seen : List String),
    (∀ l ∈ ls, pyStrip l = l ∧ l ≠ "" ∧ 15 < l.length ∧ ¬ l ∈ seen) →
    ls.Nodup → dedupGo seen ls = ls := by
  induction ls with
  | nil => intro seen _ _; rfl
  | cons l ls' ih =>
    intro seen h hnd
    obtain ⟨h1, h2, h3, h4⟩ := h l (by simp)
    rw [dedupGo]
    simp only [h1]
    rw [if_pos ⟨h2, h4, h3⟩]
    congr 1
    apply ih
    · intro x hx
      obtain ⟨a, b, c, d⟩ := h x (by simp [hx])
      refine ⟨a, b, c, ?_⟩
      intro hmem
      rcases List.mem_cons.mp hmem with e | e
      · exact (List.nodup_cons.mp hnd).1 (e ▸ hx)
      · exact d e
    · exact (List.nodup_cons.mp hnd).2

theorem clean_eq (t : String) (h : t ≠ "") :
    clean_extracted_content t =
      joinLines (dedupGo [] (pySplitlines (joinLines (cleanLines t)))) := by
  unfold clean_extracted_content
  rw [if_neg h]

/-- A list of distinct lines each already passing every filter of
`clean_extracted_content` is a fixed point of the cleaner. -/
theorem clean_fixed (L : List String)
    (hg : ∀ l ∈ L, goodLine l = true ∧ pyStrip l = l ∧
      ∀ c ∈ l.data, isLineBound c = false)
    (hnd : L.Nodup) :
    clean_extracted_content (joinLines L) = joinLines L := by
  cases L with
  | nil => simp [joinLines, clean_extracted_content]
  | cons l0 L' =>
    have hne0 : l0.data ≠ [] := goodLine_ne (hg l0 (by simp)).1
    have hne : joinLines (l0 :: L') ≠ "" := joinLines_ne l0 L' hne0
    rw [clean_eq _ hne]
    have hsp : pySplitlines (joinLines (l0 :: L')) = l0 :: L' :=
      pySplitlines_joinLines _
        (fun l hl => ⟨goodLine_ne (hg l hl).1, (hg l hl).2.2⟩)
    have hcl : cleanLines (joinLines (l0 :: L')) = l0 :: L' := by
      unfold cleanLines
      rw [hsp, map_id_of_mem pyStrip _ (fun a ha => (hg a ha).2.1)]
      exact List.filter_eq_self.mpr (fun a ha => (hg a ha).1)
    rw [hcl, hsp]
    rw [dedupGo_id _ []
      (fun l hl => ⟨(hg l hl).2.1, strNe (goodLine_ne (hg l hl).1),
        lt_trans (by norm_num) (goodLine_big (hg l hl).1), by simp⟩) hnd]

/-! ## Substring and join helpers -/

theorem segPre_append_self (p r : List Char) : segPre p (p ++ r) = true := by
  induction p with
  | nil => rfl
  | cons a p' ih => simp [segPre, ih]

theorem segIn_of_segPre (p s : List Char) (h : segPre p s = true) : segIn p s = true := by
  cases s with
  | nil =>
    cases p with
    | nil => rfl
    | cons a p' => simp [segPre] at h
  | cons b s' => simp [segIn, h]

theorem segPre_subset (p : List Char) : ∀ (s : List Char), segPre p s = true →
    ∀ c ∈ p, c ∈ s := by
  induction p with
  | nil => intro s _ c hc; simp at hc
  | cons a p' ih =>
    intro s h c hc
    cases s with
    | nil => simp [segPre] at h
    | cons b s' =>
      simp only [segPre, Bool.and_eq_true, decide_eq_true_eq] at h
      rcases List.mem_cons.mp hc with h1 | h1
      · subst h1; simp [h.1]
      · exact List.mem_cons_of_mem _ (ih s' h.2 c h1)

theorem segIn_subset (p : List Char) : ∀ (s : List Char), segIn p s = true →
    ∀ c ∈ p, c ∈ s := by
  intro s
  induction s with
  | nil =>
    intro h c hc
    cases p with
    | nil => simp at hc
    | cons a p' => simp [segIn, List.isEmpty] at h
  | cons b s' ih =>
    intro h c hc
    rw [segIn, Bool.or_eq_true] at h
    rcases h with h1 | h1
    · exact segPre_subset p _ h1 c hc
    · exact List.mem_cons_of_mem _ (ih h1 c hc)

/-- If some character of the pattern is missing from the haystack, the
pattern does not occur as a substring. -/
theorem containsStr_false_of_missing (s pat : String) (c : Char) (hc : c ∈ pat.data)
    (hs : ¬ c ∈ s.data) : containsStr s pat = false := by
  by_contra h
  exact hs (segIn_subset pat.data s.data (Bool.of_not_eq_false h) c hc)

theorem joinLines_cons_data (l l2 : String) (ls : List String) :
    (joinLines (l :: l2 :: ls)).data = l.data ++ '\n' :: (joinLines (l2 :: ls)).data := by
  rw [show joinLines (l :: l2 :: ls) = l ++ "\n" ++ joinLines (l2 :: ls) from rfl]
  rw [String.data_append, String.data_append, List.append_assoc]
  rfl

theorem joinLines_head_prefix (b : String) (bs : List String) :
    ∃ r, (joinLines (b :: bs)).data = b.data ++ r := by
  cases bs with
  | nil => exact ⟨[], by simp [joinLines]⟩
  | cons b2 bs' => exact ⟨_, joinLines_cons_data b b2 bs'⟩

/-- A join of bullet-shaped lines contains the bullet marker. -/
theorem joinLines_contains_bullet (b : String) (bs : List String) (t : String)
    (hb : b = "• " ++ t) : containsStr (joinLines (b :: bs)) "• " = true := by
  obtain ⟨r, hr⟩ := joinLines_head_prefix b bs
  unfold containsStr
  apply segIn_of_segPre
  rw [hr, hb, String.data_append, List.append_assoc]
  exact segPre_append_self _ _

theorem joinLines_bullet_ne (b : String) (bs : List String) (t : String)
    (hb : b = "• " ++ t) : joinLines (b :: bs) ≠ "" := by
  apply joinLines_ne
  rw [hb, String.data_append]
  simp

theorem stripList_eq_self_of_ends (l : List Char)
    (h1 : ∀ x, l.head? = some x → pyIsSpaceChar x = false)
    (h2 : ∀ x, l.getLast? = some x → pyIsSpaceChar x = false) :
    stripList l = l := by
  unfold stripList
  rw [dropWhile_of_head_false h1]
  rw [dropWhile_of_head_false (fun x hx => h2 x (by rwa [List.head?_reverse] at hx))]
  exact List.reverse_reverse l

/-! ## C5: idempotence of cleaning -/

/-- C5: for every input string, applying the text cleaner twice yields the
same result as applying it once:
`clean_extracted_content (clean_extracted_content text) =
clean_extracted_content text`. -/
theorem clean_extracted_content_idempotent (text : String) :
    clean_extracted_content (clean_extracted_content text) =
      clean_extracted_content text := by
  by_cases h0 : text = ""
  · subst h0
    simp [clean_extracted_content]
  · rw [clean_eq text h0]
    have hC := cleanLines_spec text
    have hspC : pySplitlines (joinLines (cleanLines text)) = cleanLines text :=
      pySplitlines_joinLines _ (fun l hl => ⟨(hC l hl).2.2.1, (hC l hl).2.2.2⟩)
    rw [hspC]
    have hsub : ∀ x ∈ dedupGo [] (cleanLines text), x ∈ cleanLines text :=
      dedupGo_subset [] _ (fun l hl => (hC l hl).2.1)
    have hnd : (dedupGo [] (cleanLines text)).Nodup := (dedupGo_nodup _ []).1
    apply clean_fixed
    · intro l hl
      have h := hC l (hsub l hl)
      exact ⟨h.1, h.2.1, h.2.2.2⟩
    · exact hnd

/-! ## C3: the substance gate of the extractor -/

theorem scrapeSelect_below (sel para full : String)
    (hsel : (pyStrip sel).length < 200)
    (hpara : (pyStrip para).length < 50)
    (hfull : (pyStrip full).length ≤ 500) :
    scrapeSelect sel para full = para := by
  simp only [scrapeSelect]
  rw [if_pos (Or.inr hsel)]
  rw [if_pos (Or.inr (by omega : (pyStrip para).length < 100))]
  rw [if_neg (by omega : ¬ (pyStrip full).length > 500)]

theorem scrapeAssemble_below_gate (sel para full : String)
    (hsel : (pyStrip sel).length < 200)
    (hpara : (pyStrip para).length < 50)
    (hfull : (pyStrip full).length ≤ 500) :
    scrapeAssemble sel para full = "" := by
  unfold scrapeAssemble
  rw [scrapeSelect_below sel para full hsel hpara hfull]
  rw [if_pos (Or.inr hpara)]

/-- C3 (amended): the 50-character substance gate of
`scrape_article_content` is applied to the extracted content before
cleaning: whenever the selector stage stays under 200 stripped characters,
the paragraph stage under 50 and the full document text is not above 500,
the function returns the empty string.  The counterexample theorem shows
the gate does not bound the returned (cleaned) text, which can be a
non-empty string shorter than 50 characters. -/
theorem scrape_below_gate_empty (url : String) (fetchOk : Nat → Bool)
    (ms : List (List String)) (para full : String)
    (hsel : (pyStrip (selectorLoop ms)).length < 200)
    (hpara : (pyStrip para).length < 50)
    (hfull : (pyStrip full).length ≤ 500) :
    (scrape_article_content url fetchOk ms para full).1 = "" := by
  unfold scrape_article_content
  split
  · rfl
  · simp only []
    split
    · exact congrArg Prod.fst
        (congrArg (fun s => (s, if fetchOk 0 then 1 else if fetchOk 1 then 2 else 3))
          (scrapeAssemble_below_gate _ _ _ hsel hpara hfull))
    · rfl

theorem scrape_below_gate_empty_witness :
    (scrape_article_content "http://x.com" (fun _ => true) [] "" "").1 = "" :=
  scrape_below_gate_empty "http://x.com" (fun _ => true) [] "" ""
    (by decide) (by decide) (by decide)

set_option maxRecDepth 40000 in
/-- C3 counterexample: on a page whose extracted content has 322 stripped
characters (passing the 50-character gate) but collapses to a single
21-character line after cleaning, `scrape_article_content` returns that
non-empty 21-character string — a non-empty success shorter than the
minimum-substance threshold, contradicting the claim that such a result is
impossible. -/
theorem scrape_short_success_counterexample :
    (scrape_article_content "http://example.com" (fun _ => true)
        [[shortCleanContent]] "" "").1 ≠ "" ∧
    ((scrape_article_content "http://example.com" (fun _ => true)
        [[shortCleanContent]] "" "").1).length < 50 := by
  have h : (scrape_article_content "http://example.com" (fun _ => true)
      [[shortCleanContent]] "" "").1 = "aaa bbb ccc ddd eee f" := by decide
  rw [h]
  exact ⟨by decide, by decide⟩

/-! ## C6: largest-element-wins in the selector cascade -/

theorem foldl_max_spec (es : List String) : ∀ (b : String),
    (es.foldl (fun best x => if (pyStrip x).length > (pyStrip best).length then x else best) b = b ∨
     es.foldl (fun best x => if (pyStrip x).length > (pyStrip best).length then x else best) b ∈ es) ∧
    (pyStrip b).length ≤
      (pyStrip (es.foldl (fun best x => if (pyStrip x).length > (pyStrip best).length then x else best) b)).length ∧
    ∀ x ∈ es, (pyStrip x).length ≤
      (pyStrip (es.foldl (fun best x => if (pyStrip x).length > (pyStrip best).length then x else best) b)).length := by
  induction es with
  | nil => intro b; exact ⟨Or.inl rfl, le_rfl, by simp⟩
  | cons e es' ih =>
    intro b
    simp only [List.foldl_cons]
    obtain ⟨ih1, ih2, ih3⟩ :=
      ih (if (pyStrip e).length > (pyStrip b).length then e else b)
    have hcases : (if (pyStrip e).length > (pyStrip b).length then e else b) = e ∨
        (if (pyStrip e).length > (pyStrip b).length then e else b) = b := by
      split
      · exact Or.inl rfl
      · exact Or.inr rfl
    have hbb : (pyStrip b).length ≤
        (pyStrip (if (pyStrip e).length > (pyStrip b).length then e else b)).length := by
      split
      · omega
      · exact le_rfl
    have heb : (pyStrip e).length ≤
        (pyStrip (if (pyStrip e).length > (pyStrip b).length then e else b)).length := by
      split
      · exact le_rfl
      · omega
    refine ⟨?_, le_trans hbb ih2, ?_⟩
    · rcases ih1 with h | h
      · rw [h]
        rcases hcases with h2 | h2
        · rw [h2]; exact Or.inr (by simp)
        · rw [h2]; exact Or.inl rfl
      · exact Or.inr (List.mem_cons_of_mem _ h)
    · intro x hx
      rcases List.mem_cons.mp hx with h | h
      · subst h; exact le_trans heb ih2
      · exact ih3 x h

/-- C6: for every selector match set, the chosen element is a member of
maximal stripped-text length (Python `max` semantics), and it is accepted
as the article body exactly when its stripped length exceeds the
200-character minimum-substance threshold, in which case the selector loop
stops and returns it. -/
theorem selector_largest_wins (elems : List String) (rest : List (List String))
    (c : String) (h : pickLargest elems = some c) :
    c ∈ elems ∧ (∀ e ∈ elems, (pyStrip e).length ≤ (pyStrip c).length) ∧
    (200 < (pyStrip c).length → selectorLoop (elems :: rest) = c) := by
  cases elems with
  | nil => simp [pickLargest] at h
  | cons e es =>
    rw [pickLargest] at h
    have hc :
        es.foldl (fun best x => if (pyStrip x).length > (pyStrip best).length then x else best)
          e = c := by
      injection h
    obtain ⟨h1, h2, h3⟩ := foldl_max_spec es e
    rw [hc] at h1 h2 h3
    refine ⟨?_, ?_, ?_⟩
    · rcases h1 with h4 | h4
      · rw [← h4]; simp
      · exact List.mem_cons_of_mem _ h4
    · intro x hx
      rcases List.mem_cons.mp hx with h4 | h4
      · subst h4; exact h2
      · exact h3 x h4
    · intro h200
      rw [selectorLoop]
      rw [show pickLargest (e :: es) = some c from by rw [pickLargest, hc]]
      exact if_pos h200

theorem head?_replicate_eq {c x : Char} {n : Nat}
    (h : (List.replicate n c).head? = some x) : x = c := by
  cases n with
  | zero => simp at h
  | succ m =>
    rw [List.replicate_succ, List.head?_cons] at h
    exact (Option.some.injEq _ _ ▸ h).symm

theorem getLast?_replicate_eq {c x : Char} {n : Nat}
    (h : (List.replicate n c).getLast? = some x) : x = c := by
  rw [← List.head?_reverse, List.reverse_replicate] at h
  exact head?_replicate_eq h

theorem pyStrip_replicate (c : Char) (n : Nat) (hc : pyIsSpaceChar c = false) :
    pyStrip (String.mk (List.replicate n c)) = String.mk (List.replicate n c) := by
  unfold pyStrip
  show String.mk (stripList (List.replicate n c)) = _
  rw [stripList_eq_self_of_ends (List.replicate n c)
    (fun x hx => by rw [head?_replicate_eq hx]; exact hc)
    (fun x hx => by rw [getLast?_replicate_eq hx]; exact hc)]

theorem articleBlock_striplen : (pyStrip articleBlock).length = 2000 := by
  rw [show articleBlock = String.mk (List.replicate 2000 'a') from rfl,
    pyStrip_replicate 'a' 2000 (by decide)]
  show (List.replicate 2000 'a').length = 2000
  rw [List.length_replicate]

theorem sidebarDiv_striplen : (pyStrip sidebarDiv).length = 100 := by
  rw [show sidebarDiv = String.mk (List.replicate 100 'b') from rfl,
    pyStrip_replicate 'b' 100 (by decide)]
  show (List.replicate 100 'b').length = 100
  rw [List.length_replicate]

theorem pickLargest_scenario :
    pickLargest [sidebarDiv, sidebarDiv, sidebarDiv, articleBlock] = some articleBlock := by
  rw [pickLargest]
  simp only [List.foldl_cons, List.foldl_nil, ite_self]
  rw [if_pos (by rw [articleBlock_striplen, sidebarDiv_striplen]; norm_num)]

theorem selector_largest_wins_witness :
    selectorLoop [[sidebarDiv, sidebarDiv, sidebarDiv, articleBlock]] = articleBlock :=
  (selector_largest_wins _ [] articleBlock pickLargest_scenario).2.2
    (by rw [articleBlock_striplen]; norm_num)

/-! ## C9: date parsing never fails -/

/-- C9: `parse_entry_date` is total (it always produces a timestamp): when
every date field of the entry is absent, empty or unparseable, it returns
the current time, and since the recency cutoff of `fetch_rss_articles` is
`now` minus a positive number of hours, that default timestamp always
passes the recency test, so an undated entry is treated as recent. -/
theorem parse_entry_date_total_default (mkDate : List Int → Option Int)
    (strParse : String → Option Int) (now : Int) (hoursBack : Int) (e : RSSEntry)
    (h1 : tryTimeTuple mkDate e.published_parsed = none)
    (h2 : tryTimeTuple mkDate e.updated_parsed = none)
    (h3 : tryDateString strParse e.published = none)
    (h4 : tryDateString strParse e.updated = none)
    (h5 : tryDateString strParse e.date = none)
    (hhb : 0 < hoursBack) :
    parse_entry_date mkDate strParse now e = now ∧
    entryIsRecent (parse_entry_date mkDate strParse now e)
      (rssCutoff now hoursBack) = true := by
  have hp : parse_entry_date mkDate strParse now e = now := by
    unfold parse_entry_date
    rw [h1, h2, h3, h4, h5]
    rfl
  refine ⟨hp, ?_⟩
  rw [hp]
  unfold entryIsRecent rssCutoff
  simp only [decide_eq_true_eq]
  omega

theorem parse_entry_date_total_default_witness :
    parse_entry_date (fun _ => none) (fun _ => none) 0
      ⟨none, none, none, none, none⟩ = 0 ∧
    entryIsRecent (parse_entry_date (fun _ => none) (fun _ => none) 0
      ⟨none, none, none, none, none⟩) (rssCutoff 0 48) = true :=
  parse_entry_date_total_default (fun _ => none) (fun _ => none) 0 48
    ⟨none, none, none, none, none⟩ rfl rfl rfl rfl rfl (by norm_num)

/-! ## C10: invalid URLs are a silent no-content outcome -/

/-- C10: for every url that is empty (the model of `None`) or does not
start with `"http"`, `scrape_article_content` returns the empty string and
performs zero HTTP requests. -/
theorem invalid_url_no_request (url : String) (fetchOk : Nat → Bool)
    (ms : List (List String)) (para full : String)
    (h : url = "" ∨ segPre "http".data url.data = false) :
    scrape_article_content url fetchOk ms para full = ("", 0) := by
  unfold scrape_article_content
  rw [if_pos h]

theorem invalid_url_no_request_witness :
    scrape_article_content "www.example.com/story" (fun _ => true) [] "" "" = ("", 0) :=
  invalid_url_no_request "www.example.com/story" (fun _ => true) [] "" ""
    (Or.inr (by decide))

/-! ## C2: the bullet invariant -/

theorem lineBullets_aux (lines : List String) : ∀ (acc : List String),
    (∀ b ∈ acc, ∃ t, b = "• " ++ t ∧ 5 ≤ (pySplit t).length ∧
      (pySplit t).length ≤ 50 ∧ 20 < t.length) →
    ∀ b ∈ lines.foldl
      (fun bs line =>
        let t := stripMarker line
        if lineBulletOk t bs.length then bs ++ ["• " ++ t] else bs) acc,
    ∃ t, b = "• " ++ t ∧ 5 ≤ (pySplit t).length ∧
      (pySplit t).length ≤ 50 ∧ 20 < t.length := by
  induction lines with
  | nil => intro acc hacc b hb; exact hacc b hb
  | cons line ls ih =>
    intro acc hacc b hb
    rw [List.foldl_cons] at hb
    refine ih _ ?_ b hb
    intro x hx
    simp only [] at hx
    split at hx
    · rcases List.mem_append.mp hx with h1 | h1
      · exact hacc x h1
      · simp only [List.mem_singleton] at h1
        subst h1
        rename_i hok
        refine ⟨stripMarker line, rfl, ?_, ?_, ?_⟩ <;>
          (unfold lineBulletOk at hok
           simp only [Bool.and_eq_true, decide_eq_true_eq] at hok
           tauto)
    · exact hacc x hx

theorem sentBullets_aux (cleaned : String) :
    ∀ b ∈ sentBullets cleaned,
    ∃ t, b = "• " ++ t ∧ 5 ≤ (pySplit t).length ∧
      (pySplit t).length ≤ 50 ∧ 20 < t.length := by
  unfold sentBullets
  generalize (pySentSplit cleaned).take 4 = xs
  suffices h : ∀ (acc : List String),
      (∀ b ∈ acc, ∃ t, b = "• " ++ t ∧ 5 ≤ (pySplit t).length ∧
        (pySplit t).length ≤ 50 ∧ 20 < t.length) →
      ∀ b ∈ xs.foldl
        (fun bs s0 =>
          let s := pyStrip s0
          if decide (5 ≤ (pySplit s).length) && decide ((pySplit s).length ≤ 50) &&
             decide (s.length > 20) && prevIsTerm s.data.reverse
          then bs ++ ["• " ++ s] else bs) acc,
      ∃ t, b = "• " ++ t ∧ 5 ≤ (pySplit t).length ∧
        (pySplit t).length ≤ 50 ∧ 20 < t.length by
    exact h [] (by simp)
  induction xs with
  | nil => intro acc hacc b hb; exact hacc b hb
  | cons s0 ss ih =>
    intro acc hacc b hb
    rw [List.foldl_cons] at hb
    refine ih _ ?_ b hb
    intro x hx
    simp only [] at hx
    split at hx
    · rcases List.mem_append.mp hx with h1 | h1
      · exact hacc x h1
      · simp only [List.mem_singleton] at h1
        subst h1
        rename_i hok
        simp only [Bool.and_eq_true, decide_eq_true_eq] at hok
        exact ⟨pyStrip s0, rfl, hok.1.1.1, hok.1.1.2, hok.1.2⟩
    · exact hacc x hx

theorem format_bullets_shape (raw : String) :
    ∀ b ∈ format_ai_bullets raw,
    ∃ t, b = "• " ++ t ∧ 5 ≤ (pySplit t).length ∧
      (pySplit t).length ≤ 50 ∧ 20 < t.length := by
  intro b hb
  unfold format_ai_bullets at hb
  split at hb
  · simp at hb
  · simp only [] at hb
    have hb2 := List.mem_of_mem_take hb
    split at hb2
    · exact sentBullets_aux _ b hb2
    · exact lineBullets_aux _ [] (by simp) b hb2

/-- C2 (amended): every bullet produced by `format_ai_summary` is
non-empty, of the form `"• "` followed by a text whose word count lies in
[5, 50] and whose length exceeds 20 characters.  The terminal-punctuation
and no-trailing-comma/ellipsis parts of the claim do not hold: the line
path only requires a period somewhere in the bullet (a bullet may end in a
comma), the sentence path admits a trailing ellipsis, and the bullets of
`create_title_based_summary` and `enhanced_simple_summary` satisfy no
punctuation or word-count requirement at all (the counterexample is the
raw-title bullet). -/
theorem format_bullet_invariant (raw b : String) (hb : b ∈ format_ai_bullets raw) :
    b ≠ "" ∧ ∃ t, b = "• " ++ t ∧ 5 ≤ (pySplit t).length ∧
      (pySplit t).length ≤ 50 ∧ 20 < t.length := by
  obtain ⟨t, ht, h1, h2, h3⟩ := format_bullets_shape raw b hb
  refine ⟨?_, t, ht, h1, h2, h3⟩
  subst ht
  apply strNe
  rw [String.data_append]
  simp

theorem format_bullet_invariant_witness :
    ("• Acme Corp raised thirty million dollars in new funding." : String) ≠ "" ∧
    ∃ t, ("• Acme Corp raised thirty million dollars in new funding." : String) =
      "• " ++ t ∧ 5 ≤ (pySplit t).length ∧ (pySplit t).length ≤ 50 ∧ 20 < t.length :=
  format_bullet_invariant goodBody
    "• Acme Corp raised thirty million dollars in new funding." (by decide)

/-- C2 counterexample: the summary returned for an empty page with title
`"HealthCo Raises $50M Series C"` is produced by
`create_title_based_summary`, and its first bullet is the raw title, which
does not end with terminal sentence punctuation — refuting the claimed
bullet invariant for the summarization pipeline. -/
theorem bullet_invariant_counterexample :
    (create_title_based_bullets "HealthCo Raises $50M Series C").head? =
      some "HealthCo Raises $50M Series C" ∧
    endsTerminal "HealthCo Raises $50M Series C" = false := by
  constructor
  · decide
  · decide

/-! ## C8: the title-derived summary -/

/-- C8: on the empty-body input with title `"HealthCo Raises $50M Series
C"`, `create_title_based_summary` composes the four bullets shown below
(the capitalized-phrase extraction yields `"Raises"` and `"Series"`, the
currency extraction captures the group `"M"`, and the action-verb scan
finds `"raises"`), and the summary's bullets contain `"HealthCo"`,
`"$50M"` and the action word `"raises"` — `"HealthCo"` and `"$50M"`
through the leading title bullet. -/
theorem title_based_extraction :
    create_title_based_bullets "HealthCo Raises $50M Series C" =
      ["HealthCo Raises $50M Series C",
       "Article focuses on Raises, Series",
       "Involves financial amounts: M",
       "Key developments include: raises"] ∧
    containsStr (create_title_based_summary "HealthCo Raises $50M Series C")
      "HealthCo" = true ∧
    containsStr (create_title_based_summary "HealthCo Raises $50M Series C")
      "$50M" = true ∧
    containsStr (create_title_based_summary "HealthCo Raises $50M Series C")
      "raises" = true := by
  refine ⟨by decide, by decide, by decide, by decide⟩

/-! ## C1 and C4: the summarizer cascade -/

theorem title_summary_ne (title : String) : create_title_based_summary title ≠ "" := by
  apply strNe
  rw [show create_title_based_summary title =
    "• " ++ joinSep "\n• " (create_title_based_bullets title) from rfl]
  rw [String.data_append]
  simp

theorem title_summary_contains (title : String) :
    containsStr (create_title_based_summary title) "• " = true := by
  unfold containsStr
  apply segIn_of_segPre
  rw [show (create_title_based_summary title).data =
    "• ".data ++ (joinSep "\n• " (create_title_based_bullets title)).data from by
      rw [show create_title_based_summary title =
        "• " ++ joinSep "\n• " (create_title_based_bullets title) from rfl,
        String.data_append]]
  exact segPre_append_self _ _

theorem enhancedBullets_shape (score : String → Nat) (content : String) :
    ∀ b ∈ enhancedBullets score content, ∃ t, b = "• " ++ t := by
  unfold enhancedBullets
  generalize (enhancedKeySentences score content).take 3 = xs
  suffices h : ∀ (acc : List String), (∀ b ∈ acc, ∃ t, b = "• " ++ t) →
      ∀ b ∈ xs.foldl
        (fun bs s => if (pyStrip s).length > 20 then bs ++ ["• " ++ pyStrip s] else bs) acc,
      ∃ t, b = "• " ++ t by
    exact h [] (by simp)
  induction xs with
  | nil => intro acc hacc b hb; exact hacc b hb
  | cons s ss ih =>
    intro acc hacc b hb
    rw [List.foldl_cons] at hb
    refine ih _ ?_ b hb
    intro x hx
    split at hx
    · rcases List.mem_append.mp hx with h1 | h1
      · exact hacc x h1
      · simp only [List.mem_singleton] at h1
        exact ⟨pyStrip s, h1⟩
    · exact hacc x hx

theorem enhanced_shape (score : String → Nat) (content title : String) :
    enhanced_simple_summary score content title ≠ "" ∧
    containsStr (enhanced_simple_summary score content title) "• " = true := by
  unfold enhanced_simple_summary
  split
  · exact ⟨title_summary_ne title, title_summary_contains title⟩
  · split
    · exact ⟨title_summary_ne title, title_summary_contains title⟩
    · rename_i hne
      cases hb : enhancedBullets score content with
      | nil => rw [hb] at hne; simp at hne
      | cons b bs =>
        obtain ⟨t, ht⟩ := enhancedBullets_shape score content b (hb ▸ List.mem_cons_self b bs)
        exact ⟨joinLines_bullet_ne b bs t ht, joinLines_contains_bullet b bs t ht⟩

theorem format_contains_bullet (raw : String) (h : format_ai_summary raw ≠ "") :
    containsStr (format_ai_summary raw) "• " = true := by
  unfold format_ai_summary at h ⊢
  split at h
  · exact absurd rfl h
  · rename_i hraw
    rw [if_neg hraw]
    cases hbs : format_ai_bullets raw with
    | nil => rw [hbs] at h; exact absurd rfl h
    | cons b bs =>
      obtain ⟨t, ht, _, _, _⟩ := format_bullets_shape raw b (hbs ▸ List.mem_cons_self b bs)
      exact joinLines_contains_bullet b bs t ht

theorem providerAttemptsGo_spec (atts : List (Option String)) (f : String)
    (h : providerAttemptsGo atts = some f) :
    (∃ b, f = format_ai_summary b) ∧ providerValidates f = true := by
  induction atts with
  | nil => simp [providerAttemptsGo] at h
  | cons a rest ih =>
    cases a with
    | none => rw [providerAttemptsGo] at h; exact ih h
    | some b =>
      rw [providerAttemptsGo] at h
      split at h
      · rename_i hv
        have hfb : format_ai_summary b = f := by injection h
        subst hfb
        exact ⟨⟨b, rfl⟩, hv⟩
      · exact ih h

theorem providerResults_spec (env : ProviderEnv) (content : String) :
    ∀ r ∈ providerResults env content, ∀ s, r = some s →
    (∃ b, s = format_ai_summary b) ∧ providerValidates s = true := by
  intro r hr s hs
  subst hs
  simp only [providerResults, List.mem_cons, List.not_mem_nil, or_false] at hr
  rcases hr with h | h | h
  · unfold try_groq_free at h
    split at h
    · exact absurd h.symm (by simp)
    · split at h
      · exact absurd h.symm (by simp)
      · exact providerAttemptsGo_spec _ s h.symm
  · unfold try_openai_free at h
    split at h
    · exact absurd h.symm (by simp)
    · split at h
      · exact absurd h.symm (by simp)
      · exact providerAttemptsGo_spec _ s h.symm
  · unfold try_hf_chat_model at h
    split at h
    · exact absurd h.symm (by simp)
    · split at h
      · exact absurd h.symm (by simp)
      · exact providerAttemptsGo_spec _ s h.symm

theorem cascadeSelect_mem : ∀ (rs : List (Option String)) (s : String) (n : Nat),
    cascadeSelect rs = some (s, n) → some s ∈ rs := by
  intro rs
  induction rs with
  | nil => intro s n h; simp [cascadeSelect] at h
  | cons r rest ih =>
    intro s n h
    cases r with
    | none =>
      rw [cascadeSelect] at h
      cases hm : cascadeSelect rest with
      | none => rw [hm] at h; simp at h
      | some p =>
        rw [hm] at h
        simp only [Option.map_some', Option.some.injEq] at h
        have hp : p.1 = s := congrArg Prod.fst h
        exact List.mem_cons_of_mem _ (hp ▸ ih p.1 p.2 (by rw [hm]))
    | some t =>
      rw [cascadeSelect] at h
      split at h
      · have hts : t = s := congrArg Prod.fst (Option.some.inj h)
        subst hts
        exact List.mem_cons_self _ _
      · cases hm : cascadeSelect rest with
        | none => rw [hm] at h; simp at h
        | some p =>
          rw [hm] at h
          simp only [Option.map_some', Option.some.injEq] at h
          have hp : p.1 = s := congrArg Prod.fst h
          exact List.mem_cons_of_mem _ (hp ▸ ih p.1 p.2 (by rw [hm]))

theorem cascadeSelect_mono : ∀ (rs : List (Option String)) (i : Nat) (s : String),
    rs[i]? = some (some s) → (pyStrip s).length > 30 →
    (∀ j, j < i → summaryAccepted (rs.getD j none) = false) →
    cascadeSelect rs = some (s, i + 1) := by
  intro rs
  induction rs with
  | nil => intro i s h; simp at h
  | cons r rest ih =>
    intro i s hi hpass hprev
    cases i with
    | zero =>
      simp only [List.getElem?_cons_zero, Option.some.injEq] at hi
      subst hi
      rw [cascadeSelect, if_pos hpass]
    | succ i' =>
      have h0 : summaryAccepted r = false := by
        have := hprev 0 (Nat.succ_pos _)
        simpa using this
      have hs' : rest[i']? = some (some s) := by simpa using hi
      have hprev' : ∀ j, j < i' → summaryAccepted (rest.getD j none) = false := by
        intro j hj
        have := hprev (j + 1) (by omega)
        simpa using this
      cases r with
      | none =>
        rw [cascadeSelect, ih i' s hs' hpass hprev']
        rfl
      | some t =>
        have ht : ¬ (pyStrip t).length > 30 := by
          simpa [summaryAccepted] using h0
        rw [cascadeSelect, if_neg ht, ih i' s hs' hpass hprev']
        rfl

/-- C4: cascade monotonicity — when provider `i` (0-based) of the ordered
cascade is reached and its summary passes the minimum-quality validation
(`len(summary.strip()) > 30`), `generate_summary_free` returns exactly that
summary having invoked only providers `0..i`, so no provider `j > i` is
invoked.  Providers `try_openai_free` and `try_hf_chat_model` are modelled
from the spec since their definitions are missing from the source. -/
theorem cascade_monotonic (env : ProviderEnv) (score : String → Nat)
    (content title : String) (i : Nat) (s : String)
    (hgate : ¬ (content = "" ∨ (pyStrip content).length < 50))
    (hi : (providerResults env content)[i]? = some (some s))
    (hpass : (pyStrip s).length > 30)
    (hprev : ∀ j, j < i →
      summaryAccepted ((providerResults env content).getD j none) = false) :
    generate_summary_free env score content title = (s, i + 1) := by
  unfold generate_summary_free
  rw [if_neg hgate, cascadeSelect_mono (providerResults env content) i s hi hpass hprev]

set_option maxRecDepth 40000 in
theorem cascade_monotonic_witness :
    generate_summary_free ⟨true, false, false, [some goodBody], [], []⟩ (fun _ => 0)
      longEnoughContent "T" = (goodBody, 1) :=
  cascade_monotonic ⟨true, false, false, [some goodBody], [], []⟩ (fun _ => 0)
    longEnoughContent "T" 0 goodBody (by decide) (by decide) (by decide)
    (fun j hj => absurd hj (Nat.not_lt_zero j))

/-- C1: floor guarantee of the summarizer — for every provider environment,
scoring, content and non-empty title, `generate_summary_free` returns a
non-empty summary containing at least one bullet marker (the embedding is a
total function, so no exception reaches the caller), and whenever the
content is empty or its stripped length is below the 50-character gate the
result is exactly `create_title_based_summary title`. -/
theorem generate_summary_floor (env : ProviderEnv) (score : String → Nat)
    (content title : String) (htitle : title ≠ "") :
    (generate_summary_free env score content title).1 ≠ "" ∧
    containsStr (generate_summary_free env score content title).1 "• " = true ∧
    ((content = "" ∨ (pyStrip content).length < 50) →
      (generate_summary_free env score content title).1 =
        create_title_based_summary title) := by
  unfold generate_summary_free
  by_cases hgate : content = "" ∨ (pyStrip content).length < 50
  · rw [if_pos hgate]
    exact ⟨title_summary_ne title, title_summary_contains title, fun _ => rfl⟩
  · rw [if_neg hgate]
    have hmain :
        ((match cascadeSelect (providerResults env content) with
          | some (s, n) => (s, n)
          | none => (enhanced_simple_summary score content title, 3)) : String × Nat).1 ≠ "" ∧
        containsStr ((match cascadeSelect (providerResults env content) with
          | some (s, n) => (s, n)
          | none => (enhanced_simple_summary score content title, 3)) : String × Nat).1
          "• " = true := by
      cases hsel : cascadeSelect (providerResults env content) with
      | none =>
        simp only []
        exact enhanced_shape score content title
      | some p =>
        obtain ⟨s, n⟩ := p
        simp only []
        have hmem := cascadeSelect_mem _ s n hsel
        obtain ⟨⟨b, hbs⟩, hv⟩ := providerResults_spec env content _ hmem s rfl
        have hne : s ≠ "" := by
          unfold providerValidates at hv
          simp only [Bool.and_eq_true, decide_eq_true_eq] at hv
          exact hv.1
        refine ⟨hne, ?_⟩
        rw [hbs]
        exact format_contains_bullet b (hbs ▸ hne)
    exact ⟨hmain.1, hmain.2, fun hc => absurd hc hgate⟩

theorem generate_summary_floor_witness :
    (generate_summary_free ⟨false, false, false, [], [], []⟩ (fun _ => 0) "" "T").1 =
      create_title_based_summary "T" :=
  (generate_summary_floor ⟨false, false, false, [], [], []⟩ (fun _ => 0) "" "T"
    (by decide)).2.2 (Or.inl rfl)

/-! ## C7: the CleanText invariant and the truncation budget -/

theorem pyTake_length_le (s : String) (n : Nat) : (pyTake s n).length ≤ n := by
  show (s.data.take n).length ≤ n
  simp [List.length_take]

theorem scrapeAssemble_cases (sel para full : String) :
    scrapeAssemble sel para full = "" ∨
    ∃ cc, scrapeAssemble sel para full = pyTake cc 15000 := by
  simp only [scrapeAssemble]
  split
  · exact Or.inl rfl
  · split
    · exact Or.inl rfl
    · exact Or.inr ⟨_, rfl⟩

/-- C7 (amended): every line of `clean_extracted_content`'s output is
longer than 20 characters and the lines are free of duplicates; the
truncation applied by `scrape_article_content` bounds every returned
result by the 15000-character cap as a hard cutoff.  The counterexample
theorem shows the line invariants do not survive the cutoff: the truncated
result can end in a line shorter than the minimum-meaningful-length
threshold. -/
theorem clean_invariants (content : String) :
    (∀ l ∈ pySplitlines (clean_extracted_content content), 20 < l.length) ∧
    (pySplitlines (clean_extracted_content content)).Nodup ∧
    ∀ (url : String) (fetchOk : Nat → Bool) (ms : List (List String))
      (para full : String),
      ((scrape_article_content url fetchOk ms para full).1).length ≤ 15000 := by
  refine ⟨?_, ?_, ?_⟩
  case _ =>
    by_cases h0 : content = ""
    · subst h0; intro l hl; simp [clean_extracted_content, pySplitlines, slGo] at hl
    · rw [clean_eq content h0]
      have hC := cleanLines_spec content
      have hspC : pySplitlines (joinLines (cleanLines content)) = cleanLines content :=
        pySplitlines_joinLines _ (fun l hl => ⟨(hC l hl).2.2.1, (hC l hl).2.2.2⟩)
      rw [hspC]
      have hsub : ∀ x ∈ dedupGo [] (cleanLines content), x ∈ cleanLines content :=
        dedupGo_subset [] _ (fun l hl => (hC l hl).2.1)
      have hspD : pySplitlines (joinLines (dedupGo [] (cleanLines content))) =
          dedupGo [] (cleanLines content) :=
        pySplitlines_joinLines _
          (fun l hl => ⟨(hC l (hsub l hl)).2.2.1, (hC l (hsub l hl)).2.2.2⟩)
      rw [hspD]
      intro l hl
      exact goodLine_big (hC l (hsub l hl)).1
  case _ =>
    by_cases h0 : content = ""
    · subst h0; simp [clean_extracted_content, pySplitlines, slGo]
    · rw [clean_eq content h0]
      have hC := cleanLines_spec content
      have hspC : pySplitlines (joinLines (cleanLines content)) = cleanLines content :=
        pySplitlines_joinLines _ (fun l hl => ⟨(hC l hl).2.2.1, (hC l hl).2.2.2⟩)
      rw [hspC]
      have hsub : ∀ x ∈ dedupGo [] (cleanLines content), x ∈ cleanLines content :=
        dedupGo_subset [] _ (fun l hl => (hC l hl).2.1)
      have hspD : pySplitlines (joinLines (dedupGo [] (cleanLines content))) =
          dedupGo [] (cleanLines content) :=
        pySplitlines_joinLines _
          (fun l hl => ⟨(hC l (hsub l hl)).2.2.1, (hC l (hsub l hl)).2.2.2⟩)
      rw [hspD]
      exact (dedupGo_nodup _ []).1
  case _ =>
    intro url fetchOk ms para full
    unfold scrape_article_content
    split
    · simp
    · simp only []
      split
      · rcases scrapeAssemble_cases (selectorLoop ms) para full with h | ⟨cc, h⟩
        · simp [h]
        · simp only [h]
          exact pyTake_length_le cc 15000
      · simp

theorem clean_invariants_witness :
    20 < ("aaa bbb ccc ddd eee ff" : String).length :=
  (clean_invariants "aaa bbb ccc ddd eee ff").1 "aaa bbb ccc ddd eee ff" (by decide)

/-! ### C7 counterexample machinery: facts about the two-line long input -/

theorem flatten_replicate_zw_length (n : Nat) :
    ((List.replicate n zwBlock).flatten).length = 3 * n := by
  induction n with
  | zero => rfl
  | succ m ih =>
    rw [List.replicate_succ, List.flatten_cons, List.length_append, ih]
    show zwBlock.length + 3 * m = 3 * (m + 1)
    rw [show zwBlock.length = 3 from rfl]
    omega

theorem flatten_replicate_zw_mem (n : Nat) (c : Char)
    (hc : c ∈ (List.replicate n zwBlock).flatten) : c ∈ zwBlock := by
  obtain ⟨l, hl, hcl⟩ := List.mem_flatten.mp hc
  rwa [(List.mem_replicate.mp hl).2] at hcl

theorem wsGo_replicate_zw (n : Nat) (rest : List Char) :
    wsGo ((List.replicate n zwBlock).flatten ++ rest) [] =
      List.replicate n "zw" ++ wsGo rest [] := by
  induction n with
  | zero => simp
  | succ m ih =>
    rw [List.replicate_succ, List.flatten_cons, List.append_assoc]
    rw [show zwBlock ++ ((List.replicate m zwBlock).flatten ++ rest) =
      'z' :: 'w' :: ' ' :: ((List.replicate m zwBlock).flatten ++ rest) from rfl]
    rw [show wsGo ('z' :: 'w' :: ' ' :: ((List.replicate m zwBlock).flatten ++ rest)) [] =
      "zw" :: wsGo ((List.replicate m zwBlock).flatten ++ rest) [] from rfl]
    rw [ih, List.replicate_succ, List.cons_append]

theorem line0_data : line0.data = (List.replicate 4997 zwBlock).flatten ++ ['1', '0'] := rfl

theorem line0_data_cons : line0.data =
    'z' :: 'w' :: ' ' :: ((List.replicate 4996 zwBlock).flatten ++ ['1', '0']) := by
  rw [line0_data, show (4997 : Nat) = 4996 + 1 from rfl, List.replicate_succ,
    List.flatten_cons, List.append_assoc]
  rfl

theorem line0_length : line0.length = 14993 := by
  show line0.data.length = 14993
  rw [line0_data, List.length_append, flatten_replicate_zw_length]
  rfl

theorem line0_words : (pySplit line0).length = 4998 := by
  show (wsGo line0.data []).length = 4998
  rw [line0_data, wsGo_replicate_zw, List.length_append, List.length_replicate]
  rfl

theorem line0_chars : ∀ c ∈ line0.data, c ∈ zwAllowed := by
  intro c hc
  rw [line0_data] at hc
  rcases List.mem_append.mp hc with h | h
  · have hz := flatten_replicate_zw_mem _ c h
    fin_cases hz <;> decide
  · fin_cases h <;> decide

theorem line0_lower_chars : ∀ c ∈ (pyLower line0).data, c ∈ zwAllowed := by
  intro c hc
  rw [show (pyLower line0).data = line0.data.map Char.toLower from rfl] at hc
  obtain ⟨d, hd, rfl⟩ := List.mem_map.mp hc
  have hda := line0_chars d hd
  fin_cases hda <;> decide

theorem line0_skipAny_false :
    skipPatterns.any (fun p => containsStr (pyLower line0) p) = false := by
  rw [Bool.eq_false_iff]
  intro hany
  obtain ⟨p, hp, hcp⟩ := List.any_eq_true.mp hany
  have hwit : ∃ c ∈ p.data, ¬ c ∈ zwAllowed := by
    have H : ∀ q ∈ skipPatterns, ∃ c ∈ q.data, ¬ c ∈ zwAllowed := by decide
    exact H p hp
  obtain ⟨c, hc, hcn⟩ := hwit
  rw [containsStr_false_of_missing (pyLower line0) p c hc
    (fun hmem => hcn (line0_lower_chars c hmem))] at hcp
  exact Bool.false_ne_true hcp

theorem line0_lower_cons : ∃ R, (pyLower line0).data = 'z' :: R := by
  rw [show (pyLower line0).data = line0.data.map Char.toLower from rfl, line0_data_cons]
  exact ⟨_, rfl⟩

theorem goodLine_line0 : goodLine line0 = true := by
  unfold goodLine
  simp only [Bool.and_eq_true, Bool.not_eq_true', decide_eq_true_eq]
  obtain ⟨R, hR⟩ := line0_lower_cons
  refine ⟨⟨⟨⟨⟨⟨⟨⟨?_, ?_⟩, ?_⟩, ?_⟩, ?_⟩, ?_⟩, ?_⟩, ?_⟩, ?_⟩
  · rw [line0_length]; omega
  · rw [line0_words]; omega
  · have hall : line0.data.all Char.isDigit = false := by
      rw [Bool.eq_false_iff]
      intro h'
      have hz : 'z' ∈ line0.data := by rw [line0_data_cons]; exact List.mem_cons_self _ _
      have := List.all_eq_true.mp h' 'z' hz
      simp at this
    unfold pyIsDigitStr
    rw [hall, Bool.and_false]
  · rw [Bool.eq_false_iff]
    intro h'
    have hmem : '©' ∈ line0.data := by
      obtain ⟨a, ha, hab⟩ := List.contains_iff_exists_mem_beq.mp h'
      have hae : '©' = a := by
        rwa [show (('©' : Char) == a) = decide ('©' = a) from rfl,
          decide_eq_true_eq] at hab
      rwa [hae]
    exact absurd (line0_chars '©' hmem) (by decide)
  · exact line0_skipAny_false
  · unfold reCounterMatch
    rw [hR]
    simp [List.takeWhile_cons]
  · unfold reMonthMatch
    rw [hR]
    rfl
  · unfold reNumPunctMatch
    rw [line0_data_cons]
    rfl
  · show line0.data.count '|' < 4
    rw [List.count_eq_zero.mpr
      (fun hmem => absurd (line0_chars '|' hmem) (by decide))]
    omega

theorem line0_stripped : pyStrip line0 = line0 := by
  show String.mk (stripList line0.data) = line0
  rw [stripList_eq_self_of_ends line0.data ?h1 ?h2]
  case h1 =>
    intro x hx
    rw [line0_data_cons] at hx
    simp only [List.head?_cons, Option.some.injEq] at hx
    subst hx; decide
  case h2 =>
    intro x hx
    rw [line0_data, List.getLast?_append_of_ne_nil _ (by simp)] at hx
    simp only [show (['1', '0'] : List Char).getLast? = some '0' from rfl,
      Option.some.injEq] at hx
    subst hx; decide

theorem line0_noBound : ∀ c ∈ line0.data, isLineBound c = false := by
  intro c hc
  have := line0_chars c hc
  fin_cases this <;> decide

theorem line0_ne_line1 : line0 ≠ line1 := by
  intro h
  have := congrArg String.length h
  rw [line0_length] at this
  exact absurd this (by decide)

set_option maxRecDepth 4000 in
theorem line1_facts : goodLine line1 = true ∧ pyStrip line1 = line1 ∧
    line1.data ≠ [] ∧ (∀ c ∈ line1.data, isLineBound c = false) := by
  refine ⟨by decide, by decide, by decide, by decide⟩

theorem clean_longContent : clean_extracted_content longContent = longContent := by
  apply clean_fixed [line0, line1]
  · intro l hl
    rcases List.mem_cons.mp hl with h | h
    · subst h
      exact ⟨goodLine_line0, line0_stripped, line0_noBound⟩
    · simp only [List.mem_singleton] at h
      subst h
      exact ⟨line1_facts.1, line1_facts.2.1, line1_facts.2.2.2⟩
  · simp [line0_ne_line1]

theorem longContent_data : longContent.data = line0.data ++ '\n' :: line1.data :=
  joinLines_cons_data line0 line1 []

theorem longContent_length : longContent.length = 15017 := by
  show longContent.data.length = 15017
  rw [longContent_data, List.length_append, List.length_cons]
  rw [show line0.data.length = 14993 from line0_length]
  rw [show line1.data.length = 23 from by decide]

theorem longContent_ne : longContent ≠ "" := by
  apply strNe
  rw [longContent_data, line0_data_cons, List.cons_append]
  exact List.cons_ne_nil _ _

theorem longContent_stripped : pyStrip longContent = longContent := by
  show String.mk (stripList longContent.data) = longContent
  rw [stripList_eq_self_of_ends longContent.data ?h1 ?h2]
  case h1 =>
    intro x hx
    rw [longContent_data, line0_data_cons, List.cons_append, List.head?_cons,
      Option.some.injEq] at hx
    subst hx; decide
  case h2 =>
    intro x hx
    rw [longContent_data, List.getLast?_append_of_ne_nil _ (by simp)] at hx
    rw [show ('\n' :: line1.data).getLast? = some '2' from by decide,
      Option.some.injEq] at hx
    subst hx; decide

theorem longContent_striplen : (pyStrip longContent).length = 15017 := by
  rw [longContent_stripped, longContent_length]

theorem selectorLoop_longContent : selectorLoop [[longContent]] = longContent := by
  rw [selectorLoop, show pickLargest [longContent] = some longContent from rfl]
  exact if_pos (by rw [longContent_striplen]; omega)

theorem scrapeSelect_longContent : scrapeSelect longContent "" "" = longContent := by
  have hinner :
      (if longContent = "" ∨ (pyStrip longContent).length < 200 then ("" : String)
        else longContent) = longContent :=
    if_neg (by rw [longContent_striplen]; push_neg; exact ⟨longContent_ne, by omega⟩)
  simp only [scrapeSelect]
  rw [hinner]
  rw [if_neg (by rw [longContent_striplen]; push_neg; exact ⟨longContent_ne, by omega⟩)]

theorem scrape_fst (url : String) (ms : List (List String)) (p f : String)
    (h : ¬(url = "" ∨ segPre "http".data url.data = false)) :
    (scrape_article_content url (fun _ => true) ms p f).1 =
      scrapeAssemble (selectorLoop ms) p f := by
  unfold scrape_article_content
  rewrite [if_neg h, if_pos (Or.inl rfl)]
  rfl

theorem scrape_longContent :
    (scrape_article_content "http://example.com" (fun _ => true)
      [[longContent]] "" "").1 = pyTake longContent 15000 := by
  rewrite [scrape_fst "http://example.com" [[longContent]] "" "" (by decide)]
  rewrite [selectorLoop_longContent]
  unfold scrapeAssemble
  rewrite [scrapeSelect_longContent]
  rewrite [if_neg (by rw [longContent_striplen]; push_neg; exact ⟨longContent_ne, by omega⟩)]
  rewrite [clean_longContent, if_neg longContent_ne]
  rfl

theorem take_longContent : pyTake longContent 15000 = joinLines [line0, "zw zw "] := by
  apply strExt
  show longContent.data.take 15000 = (joinLines [line0, "zw zw "]).data
  rw [longContent_data, List.take_append_eq_append_take]
  rw [List.take_of_length_le (by rw [show line0.data.length = 14993 from line0_length]; omega)]
  rw [show line0.data.length = 14993 from line0_length]
  rw [show (15000 - 14993 : Nat) = 7 from rfl]
  rw [show ('\n' :: line1.data).take 7 = '\n' :: line1.data.take 6 from rfl]
  rw [show line1.data.take 6 = ("zw zw " : String).data from by decide]
  rw [joinLines_cons_data]
  rfl

theorem split_take_longContent :
    pySplitlines (pyTake longContent 15000) = [line0, "zw zw "] := by
  rw [take_longContent]
  apply pySplitlines_joinLines
  intro l hl
  rcases List.mem_cons.mp hl with h | h
  · subst h; exact ⟨goodLine_ne goodLine_line0, line0_noBound⟩
  · simp only [List.mem_singleton] at h
    subst h
    exact ⟨by decide, by decide⟩

/-- C7 counterexample: on a page whose article body is 15017 characters of
cleaner-stable text (two lines that the cleaner keeps verbatim), the
cleaning-and-truncation stage of `scrape_article_content` cuts the output
at the hard 15000-character budget in the middle of the second line,
leaving a final line of 6 characters — shorter than the
minimum-meaningful-length threshold, so the claimed conjunction of line
invariants with the hard cutoff is false. -/
theorem clean_truncation_counterexample :
    (pySplitlines (scrape_article_content "http://example.com" (fun _ => true)
        [[longContent]] "" "").1).any (fun l => decide (l.length < 16)) = true := by
  rw [scrape_longContent, split_take_longContent]
  apply List.any_eq_true.mpr
  exact ⟨"zw zw ", by simp, by decide⟩

end ArticleAggregator
